import Mathlib

/-!
Verification of the footer reconciliation engine of the bear-js-cli
repository.  Note bodies are modelled as `List Char`; the JavaScript
regular-expression operations used by the commands are embedded as
executable functions with the exact match semantics of the four fixed
patterns appearing in the source.
-/

/-- JavaScript regex `\s` character class (ECMA-262 WhiteSpace ∪ LineTerminator). -/
def isWS (c : Char) : Bool :=
  c = ' ' || c = '\t' || c = '\n' || c = '\x0b' || c = '\x0c' || c = '\r' ||
  c = ' ' || c = ' ' || (' ' ≤ c && c ≤ ' ') ||
  c = ' ' || c = ' ' || c = ' ' || c = ' ' || c = '　' || c = '﻿'

/-- The character class `[A-F0-9-]` of the Note ID patterns. -/
def isIdChar (c : Char) : Bool :=
  ('A' ≤ c && c ≤ 'F') || ('0' ≤ c && c ≤ '9') || c = '-'

/-- Match a literal prefix, returning the remainder (regex literal matching). -/
def stripPfx : List Char → List Char → Option (List Char)
  | [], l => some l
  | _ :: _, [] => none
  | p :: ps, c :: cs => if c = p then stripPfx ps cs else none

/-- The opening literal of the identity marker `<!-- Note ID: `. -/
def markerOpen : List Char := "<!-- Note ID: ".data

/-- The closing literal of the identity marker ` -->`. -/
def markerClose : List Char := " -->".data

/-- The full identity marker text for a given identifier. -/
def markerText (id : List Char) : List Char := markerOpen ++ id ++ markerClose

/-- Match `/<!-- Note ID: ([A-F0-9-]+) -->/` at the head of `l`, returning the
captured identifier and the remainder.  The greedy `[A-F0-9-]+` run is the
maximal run of class characters; since a space never belongs to the class,
the regex engine's backtracking can never shorten it, so taking the maximal
run followed by the closing literal is exact. -/
def matchMarker (l : List Char) : Option (List Char × List Char) :=
  match stripPfx markerOpen l with
  | none => none
  | some r1 =>
    let id := r1.takeWhile isIdChar
    if id.isEmpty then none
    else
      match stripPfx markerClose (r1.dropWhile isIdChar) with
      | none => none
      | some rest => some (id, rest)

/-- `detectNoteId` of the Create / UpdateText / BatchUpdate / Search commands:
`content.match(/<!-- Note ID: ([A-F0-9-]+) -->/)` returning the first captured
group, scanning left to right. -/
def detectNoteId : List Char → Option (List Char)
  | [] => none
  | c :: rest =>
    match matchMarker (c :: rest) with
    | some (id, _) => some id
    | none => detectNoteId rest

/-- One JavaScript `String.replace` with a `$`-anchored pattern: replace the
leftmost whole suffix satisfying `p` by `r`.  All four patterns of
`stripExistingFooter` end in `$` (with a trailing `\s*` / `\n+` absorbing the
rest of the input), so every match is a whole suffix and a global flag can
produce at most this one replacement. -/
def scanRepl (p : List Char → Bool) (r : List Char) : List Char → List Char
  | [] => []
  | c :: rest => if p (c :: rest) then r else c :: scanRepl p r rest

/-- The literal head `\n\n---\n*Created:` of the footer pattern. -/
def footerHead : List Char := "\n\n---\n*Created:".data

/-- The literal `*Last Updated:` heading the optional line of the footer pattern. -/
def luPfx : List Char := "*Last Updated:".data

/-- Match `pfx` then `[^\n]*` then `\n`, returning the remainder after the
newline.  `[^\n]*` is greedy and cannot cross the newline, so the match is
deterministic. -/
def matchLine (pfx : List Char) (l : List Char) : Option (List Char) :=
  match stripPfx pfx l with
  | none => none
  | some r =>
    match r.dropWhile (· != '\n') with
    | c :: rest => if c = '\n' then some rest else none
    | [] => none

/-- Match `<!-- Note ID: [A-F0-9-]+ -->\s*` against the whole of `l`. -/
def markerWsEnd (l : List Char) : Bool :=
  match matchMarker l with
  | some (_, rest) => rest.all isWS
  | none => false

/-- Whether the suffix `l` matches the whole footer pattern
`/\n\n---\n\*Created:[^\n]*\n(\*Last Updated:[^\n]*\n)?<!-- Note ID: [A-F0-9-]+ -->\s*$/`.
The optional group is resolved deterministically: when the `*Last Updated:`
line matches, the regex engine's fallback path (skipping the group) would
place the marker literal at a `*` character and fail, so trying the group
first and never backtracking is exact. -/
def matchFooterAt (l : List Char) : Bool :=
  match matchLine footerHead l with
  | none => false
  | some r3 =>
    match matchLine luPfx r3 with
    | some r4 => markerWsEnd r4
    | none => markerWsEnd r3

/-- Whether the suffix `l` matches `/\n\n---\s*$/`. -/
def matchTrailSepAt (l : List Char) : Bool :=
  match stripPfx "\n\n---".data l with
  | some r => r.all isWS
  | none => false

/-- Whether the suffix `l` matches `/\n\n+$/`: a run of at least two newlines
reaching the end of the input. -/
def matchTrailNlAt (l : List Char) : Bool :=
  decide (2 ≤ l.length) && l.all (· == '\n')

/-- `cleaned.replace(footerPattern, "")` — first step of `stripExistingFooter`. -/
def stripFooterStep : List Char → List Char := scanRepl matchFooterAt []

/-- `cleaned.replace(/\n\n---\s*$/g, "")` — third step of `stripExistingFooter`. -/
def stripTrailSep : List Char → List Char := scanRepl matchTrailSepAt []

/-- `cleaned.replace(/\n\n+$/g, "\n")` — fourth step of `stripExistingFooter`,
collapsing two or more trailing newlines to exactly one. -/
def collapseTrailing : List Char → List Char := scanRepl matchTrailNlAt ['\n']

/-- One global-replace step of `/\n*<!-- Note ID: [A-F0-9-]+ -->\s*/g` at the
current scan position: a greedy run of newlines, the marker, then a greedy run
of whitespace.  Fails when no marker starts right after the newline run
(backtracking the `\n*` cannot help because `<` is not a newline). -/
def tryMarkerChunk (l : List Char) : Option (List Char) :=
  match matchMarker (l.dropWhile (· == '\n')) with
  | some (_, rest) => some (rest.dropWhile isWS)
  | none => none

/-- The scan loop of `cleaned.replace(/\n*<!-- Note ID: [A-F0-9-]+ -->\s*/g, "")`:
on a match the scan resumes after the consumed text (the emitted prefix is
never rescanned, exactly as `lastIndex` advances in JavaScript).  Structured
with a fuel argument; a successful chunk always consumes at least the marker
literal, so fuel equal to the input length suffices. -/
def removeMarkersAux : Nat → List Char → List Char
  | _, [] => []
  | 0, l => l
  | fuel + 1, c :: rest =>
    match tryMarkerChunk (c :: rest) with
    | some l2 => removeMarkersAux fuel l2
    | none => c :: removeMarkersAux fuel rest

/-- `cleaned.replace(/\n*<!-- Note ID: [A-F0-9-]+ -->\s*/g, "")` — second step
of `stripExistingFooter`. -/
def removeMarkers (l : List Char) : List Char := removeMarkersAux l.length l

/-- The `*Created: <formatted>*` line; the formatted timestamp is abstracted as
a parameter (the source formats `now` with `toLocaleString`, which never
produces a newline). -/
def createdLine (d : List Char) : List Char := "*Created: ".data ++ d ++ ['*']

/-- The `*Last Updated: <formatted>*` line. -/
def lastUpdatedLine (d : List Char) : List Char := "*Last Updated: ".data ++ d ++ ['*']

/-- Decimal rendering of a natural number (JavaScript number-to-string on the
non-negative integers produced here), with a fuel argument for structural
recursion; `fuel = n + 1` always suffices since the value shrinks by `/ 10`. -/
def decDigits : Nat → Nat → List Char
  | 0, _ => []
  | fuel + 1, n =>
    if n < 10 then [Char.ofNat (48 + n)]
    else decDigits fuel (n / 10) ++ [Char.ofNat (48 + n % 10)]

/-- Decimal rendering of a natural number. -/
def natRepr (n : Nat) : List Char := decDigits (n + 1) n

/-- `String.prototype.padStart(2, "0")`. -/
def padStart2 (s : List Char) : List Char :=
  if s.length < 2 then List.replicate (2 - s.length) '0' ++ s else s

namespace Create

/-- `Create.stripExistingFooter` (src/src/commands/create.ts lines 204-221):
remove a complete standardized footer, then all standalone Note ID comments,
then a trailing standalone separator, then collapse trailing newlines. -/
def stripExistingFooter (content : List Char) : List Char :=
  collapseTrailing (stripTrailSep (removeMarkers (stripFooterStep content)))

/-- `Create.buildNewNoteFooter` (create.ts lines 148-182): `\n\n---`, then an
optional Created line, then an optional identity marker line.  `d` is the
formatted timestamp of `now`. -/
def buildNewNoteFooter (noteId d : List Char) (includeCreated includeId : Bool) : List Char :=
  "\n\n---".data
    ++ (if includeCreated then '\n' :: createdLine d else [])
    ++ (if includeId then '\n' :: markerText noteId else [])

/-- `Create.buildGMTOffset` (create.ts lines 187-199) as a function of
`offsetMinutes = -date.getTimezoneOffset()`, the local UTC offset in minutes. -/
def buildGMTOffset (offsetMinutes : Int) : List Char :=
  let sign : Char := if 0 ≤ offsetMinutes then '+' else '-'
  let absOffset : Nat := offsetMinutes.natAbs
  let hours : Nat := absOffset / 60
  let minutes : Nat := absOffset % 60
  if minutes = 0 then
    "GMT".data ++ sign :: natRepr hours
  else
    "GMT".data ++ sign :: (natRepr hours ++ ':' :: padStart2 (natRepr minutes))

end Create

namespace UpdateText

/-- `UpdateText.stripExistingFooter` (the enhanced update-text command,
lines 398-417): textually the same four replace steps as the Create copy. -/
def stripExistingFooter (content : List Char) : List Char :=
  collapseTrailing (stripTrailSep (removeMarkers (stripFooterStep content)))

/-- The identifier resolution at the top of `UpdateText.run`: `flags.id` wins;
otherwise the marker embedded in the file content is adopted. -/
def resolveNoteId (flagId : Option (List Char)) (content : Option (List Char)) :
    Option (List Char) :=
  match flagId with
  | some i => some i
  | none => content.bind detectNoteId

/-- The mismatch check of `UpdateText.run` (lines 137-156): an identifier
embedded in the current remote note content that differs from the working
note identifier is reported as a warning; the run then continues with the
working identifier. -/
def idMismatchWarning (noteId : List Char) (remoteContent : List Char) : Bool :=
  match detectNoteId remoteContent with
  | some d => d != noteId
  | none => false

end UpdateText

namespace BatchUpdate

/-- `BatchUpdate.stripExistingFooter` (lines 655-672): textually the same four
replace steps as the Create copy. -/
def stripExistingFooter (content : List Char) : List Char :=
  collapseTrailing (stripTrailSep (removeMarkers (stripFooterStep content)))

/-- `BatchUpdate.buildUpdateFooter` (lines 570-604): `\n\n---`, then — when
`includeCreated` — both a Created and a Last Updated line stamped with the
same formatted `now`, then — when `includeId` — the identity marker line. -/
def buildUpdateFooter (noteId d : List Char) (includeCreated includeId : Bool) : List Char :=
  "\n\n---".data
    ++ (if includeCreated then '\n' :: createdLine d ++ '\n' :: lastUpdatedLine d else [])
    ++ (if includeId then '\n' :: markerText noteId else [])

/-- `BatchUpdate.buildNewNoteFooter` (lines 606-639): identical to the Create
copy. -/
def buildNewNoteFooter (noteId d : List Char) (includeCreated includeId : Bool) : List Char :=
  "\n\n---".data
    ++ (if includeCreated then '\n' :: createdLine d else [])
    ++ (if includeId then '\n' :: markerText noteId else [])

/-- Outcome of one file in the batch loop of `BatchUpdate.run`. -/
inductive FileOutcome
  | updated
  | created
  | skipped
  | errored
  deriving DecidableEq, Repr

/-- One iteration of the batch loop (lines 399-439) on the success path
without dry-run: no detectable marker means skip before any remote call;
otherwise the note is updated when the identifier exists remotely and
created (with the same identifier) when it does not. -/
def processFile (content : List Char) (existsRemote : Bool) : FileOutcome :=
  match detectNoteId content with
  | none => FileOutcome.skipped
  | some _ => if existsRemote then FileOutcome.updated else FileOutcome.created

/-- The aggregate counters of the batch loop, as
(updated, created, skipped, errored). -/
def batchCounts (files : List (List Char × Bool)) : Nat × Nat × Nat × Nat :=
  files.foldl
    (fun acc f =>
      match processFile f.1 f.2 with
      | FileOutcome.updated => (acc.1 + 1, acc.2.1, acc.2.2.1, acc.2.2.2)
      | FileOutcome.created => (acc.1, acc.2.1 + 1, acc.2.2.1, acc.2.2.2)
      | FileOutcome.skipped => (acc.1, acc.2.1, acc.2.2.1 + 1, acc.2.2.2)
      | FileOutcome.errored => (acc.1, acc.2.1, acc.2.2.1, acc.2.2.2 + 1))
    (0, 0, 0, 0)

end BatchUpdate

/-- Externally visible effects of a workflow, in program order. -/
inductive Effect
  | remoteCreate
  | remoteAddText
  | remoteOpenNote
  | remoteSearch
  | fileWrite
  deriving DecidableEq, Repr

/-- The remote store mutations (the create and add-text calls). -/
def isRemoteMutation : Effect → Bool
  | Effect.remoteCreate => true
  | Effect.remoteAddText => true
  | _ => false

/-- Every file write in the trace is preceded by a completed remote mutation. -/
def writesAfterMutation (t : List Effect) : Bool :=
  (t.foldl
    (fun st e =>
      match e with
      | Effect.fileWrite => (st.1, st.2 && st.1)
      | e => (st.1 || isRemoteMutation e, st.2))
    (false, true)).2

namespace Create

/-- Effect order of `Create.run` (create.ts lines 49-143 and 253-315):
with an embedded Note ID the run delegates to `updateExistingNote`
(add-text, then optional write-back); otherwise it creates the note and,
when a footer is requested, updates it with add-text before the optional
write-back. -/
def runTrace (hasEmbeddedId creationDate addId writeBack contentFile : Bool) :
    List Effect :=
  if hasEmbeddedId then
    Effect.remoteAddText ::
      (if writeBack && contentFile then [Effect.fileWrite] else [])
  else
    Effect.remoteCreate ::
      (if creationDate || addId then
        Effect.remoteAddText ::
          (if writeBack && contentFile then [Effect.fileWrite] else [])
      else [])

end Create

namespace UpdateText

/-- Effect order of the enhanced `UpdateText.run` (lines 70-230) once a note
identifier is resolved and content is present: the current note content is
read, the enhanced content is written back to the source file when requested
(lines 173-177), and only then is the add-text call executed (line 205). -/
def runTrace (hasNoteId hasContent writeBack contentFile : Bool) : List Effect :=
  (if hasNoteId then [Effect.remoteOpenNote] else [])
    ++ (if hasContent && (writeBack && contentFile) then [Effect.fileWrite] else [])
    ++ [Effect.remoteAddText]

end UpdateText

namespace BatchUpdate

/-- Effect order of one iteration of the `BatchUpdate.run` loop
(lines 399-439 with `updateNote` lines 511-540 and `createNote` 542-568). -/
def fileTrace (hasMarker dryRun existsRemote writeBack : Bool) : List Effect :=
  if !hasMarker then []
  else if dryRun then []
  else
    Effect.remoteOpenNote ::
      (if existsRemote then
        Effect.remoteAddText :: (if writeBack then [Effect.fileWrite] else [])
      else
        Effect.remoteCreate :: (if writeBack then [Effect.fileWrite] else []))

end BatchUpdate

/-- The suffix `GMT±H` / `GMT±H:MM` exactly as the spec words it: the sign,
the whole hours, and the minutes component appended only when non-zero,
zero-padded to two digits (rendered here digit by digit). -/
def specGMTOffsetSuffix (offsetMinutes : Int) : List Char :=
  let sign : Char := if 0 ≤ offsetMinutes then '+' else '-'
  let h : Nat := offsetMinutes.natAbs / 60
  let m : Nat := offsetMinutes.natAbs % 60
  "GMT".data ++ sign :: natRepr h ++
    (if m = 0 then [] else ':' :: [Char.ofNat (48 + m / 10), Char.ofNat (48 + m % 10)])

/-- The footer shape of the spec's data model: a blank-line separator, a
`---` line, an optional Created line, an optional Last Updated line, and the
identity marker line. -/
def specFooter (withCreated withLastUpdated : Bool) (d id : List Char) : List Char :=
  "\n\n---".data
    ++ (if withCreated then '\n' :: createdLine d else [])
    ++ (if withLastUpdated then '\n' :: lastUpdatedLine d else [])
    ++ '\n' :: markerText id

/-- Number of newline characters in a list. -/
def nlCount (l : List Char) : Nat := l.countP (· == '\n')

theorem stripPfx_eq_some {p l r : List Char} : stripPfx p l = some r ↔ l = p ++ r := by
  induction p generalizing l with
  | nil => simp [stripPfx]
  | cons a ps ih =>
    cases l with
    | nil => simp [stripPfx]
    | cons c cs =>
      by_cases h : c = a
      · subst h; simp [stripPfx, ih]
      · simp [stripPfx, h]

theorem takeWhile_all_append {p : Char → Bool} {x : List Char} (h : x.all p = true)
    (y : List Char) : (x ++ y).takeWhile p = x ++ y.takeWhile p := by
  induction x with
  | nil => rfl
  | cons a xs ih =>
    simp only [List.all_cons, Bool.and_eq_true] at h
    simp [List.takeWhile_cons, h.1, ih h.2]

theorem dropWhile_all_append {p : Char → Bool} {x : List Char} (h : x.all p = true)
    (y : List Char) : (x ++ y).dropWhile p = y.dropWhile p := by
  induction x with
  | nil => rfl
  | cons a xs ih =>
    simp only [List.all_cons, Bool.and_eq_true] at h
    simp [List.dropWhile_cons, h.1, ih h.2]

theorem isIdChar_ne_nl {c : Char} (h : isIdChar c = true) : c ≠ '\n' := by
  intro he; subst he; exact absurd h (by decide)

theorem matchMarker_eq_some {l id r : List Char} :
    matchMarker l = some (id, r) ↔
      id ≠ [] ∧ id.all isIdChar = true ∧ l = markerText id ++ r := by
  have hmc : markerClose = ' ' :: "-->".data := rfl
  have hsp : isIdChar ' ' = false := by decide
  constructor
  · intro h
    unfold matchMarker at h
    rcases h1 : stripPfx markerOpen l with _ | r1 <;> simp only [h1] at h
    · exact absurd h (by simp)
    by_cases he : (r1.takeWhile isIdChar).isEmpty
    · simp only [he, if_true] at h
      exact absurd h (by simp)
    · simp only [he, Bool.false_eq_true, if_false] at h
      rcases h2 : stripPfx markerClose (r1.dropWhile isIdChar) with _ | rest <;>
        simp only [h2] at h
      · exact absurd h (by simp)
      obtain ⟨hid, hr⟩ : r1.takeWhile isIdChar = id ∧ rest = r := by
        simpa using h
      refine ⟨?_, ?_, ?_⟩
      · intro hn; rw [hid, hn] at he; exact he rfl
      · rw [← hid]; exact List.all_takeWhile ..
      · have hl : l = markerOpen ++ r1 := stripPfx_eq_some.mp h1
        have hr2 : r1.dropWhile isIdChar = markerClose ++ r := by
          rw [← hr]; exact stripPfx_eq_some.mp h2
        have hsplit : r1 = id ++ (markerClose ++ r) := by
          rw [← hid, ← hr2]; exact (List.takeWhile_append_dropWhile ..).symm
        simp [hl, hsplit, markerText, List.append_assoc]
  · rintro ⟨hne, hall, rfl⟩
    have h1 : stripPfx markerOpen (markerText id ++ r) =
        some (id ++ (markerClose ++ r)) := by
      apply stripPfx_eq_some.mpr
      simp [markerText, List.append_assoc]
    have htw : (id ++ (markerClose ++ r)).takeWhile isIdChar = id := by
      rw [takeWhile_all_append hall]
      rw [hmc, List.cons_append, List.takeWhile_cons, hsp]
      simp
    have hdw : (id ++ (markerClose ++ r)).dropWhile isIdChar = markerClose ++ r := by
      rw [dropWhile_all_append hall]
      conv_lhs => rw [hmc, List.cons_append, List.dropWhile_cons, hsp]
      simp [hmc]
    have hne2 : (id.isEmpty) = false := by
      cases id with
      | nil => exact absurd rfl hne
      | cons a l => rfl
    unfold matchMarker
    simp only [h1, htw, hdw, hne2, Bool.false_eq_true, if_false,
      stripPfx_eq_some.mpr rfl]

theorem nl_not_mem_markerText {id : List Char} (hall : id.all isIdChar = true) :
    '\n' ∉ markerText id := by
  intro hm
  rw [markerText, List.append_assoc] at hm
  rcases List.mem_append.mp hm with h1 | h2
  · exact absurd h1 (by decide)
  rcases List.mem_append.mp h2 with h3 | h4
  · exact isIdChar_ne_nl (List.all_eq_true.mp hall _ h3) rfl
  · exact absurd h4 (by decide)

theorem matchMarker_of_append_nl {S T id r : List Char}
    (h : matchMarker (S ++ '\n' :: T) = some (id, r)) :
    ∃ r0, matchMarker S = some (id, r0) := by
  obtain ⟨hne, hall, heq⟩ := matchMarker_eq_some.mp h
  rcases List.append_eq_append_iff.mp heq with ⟨a, ha1, ha2⟩ | ⟨c, hc1, hc2⟩
  · cases a with
    | nil =>
      have hS : S = markerText id := by simpa using ha1.symm
      exact ⟨[], matchMarker_eq_some.mpr ⟨hne, hall, by simp [hS]⟩⟩
    | cons x xs =>
      obtain ⟨hx, -⟩ : '\n' = x ∧ T = xs ++ r := by simpa using ha2
      have hmem : '\n' ∈ markerText id := by
        rw [ha1, hx]
        exact List.mem_append_right S (List.mem_cons_self x xs)
      exact absurd hmem (nl_not_mem_markerText hall)
  · exact ⟨c, matchMarker_eq_some.mpr ⟨hne, hall, hc1⟩⟩

theorem matchMarker_head_lt {l id r : List Char} (h : matchMarker l = some (id, r)) :
    ∃ t, l = '<' :: t := by
  obtain ⟨-, -, heq⟩ := matchMarker_eq_some.mp h
  have : markerOpen = '<' :: "!-- Note ID: ".data := rfl
  exact ⟨_, by rw [heq, markerText, this]; rfl⟩

theorem detectNoteId_eq_none_iff {l : List Char} :
    detectNoteId l = none ↔ ∀ S, S <:+ l → matchMarker S = none := by
  induction l with
  | nil =>
    constructor
    · intro _ S hS
      rw [List.suffix_nil.mp hS]; rfl
    · intro _; rfl
  | cons c cs ih =>
    constructor
    · intro h S hS
      unfold detectNoteId at h
      rcases hm : matchMarker (c :: cs) with _ | p <;> rw [hm] at h
      · rcases List.suffix_cons_iff.mp hS with rfl | hS2
        · exact hm
        · exact ih.mp h S hS2
      · exact absurd h (by simp)
    · intro h
      unfold detectNoteId
      rw [h (c :: cs) (List.suffix_refl _)]
      exact ih.mpr fun S hS => h S (List.suffix_cons_iff.mpr (Or.inr hS))

theorem detectNoteId_some_lt {l id : List Char} (h : detectNoteId l = some id) :
    '<' ∈ l := by
  induction l with
  | nil => exact absurd h (by simp [detectNoteId])
  | cons c cs ih =>
    unfold detectNoteId at h
    rcases hm : matchMarker (c :: cs) with _ | p <;> rw [hm] at h
    · exact List.mem_cons_of_mem c (ih h)
    · obtain ⟨t, ht⟩ := matchMarker_head_lt hm
      obtain ⟨rfl, -⟩ : c = '<' ∧ cs = t := by simpa using ht
      exact List.mem_cons_self ..

theorem scanRepl_id {p : List Char → Bool} {r l : List Char}
    (h : ∀ S, S <:+ l → S ≠ [] → p S = false) : scanRepl p r l = l := by
  induction l with
  | nil => rfl
  | cons c cs ih =>
    have h0 : p (c :: cs) = false := h _ (List.suffix_refl _) (by simp)
    rw [scanRepl, h0]
    simp only [Bool.false_eq_true, if_false, List.cons.injEq, true_and]
    exact ih fun S hS hne => h S (List.suffix_cons_iff.mpr (Or.inr hS)) hne

theorem scanRepl_append {p : List Char → Bool} {r B F : List Char}
    (hFne : F ≠ []) (hF : p F = true)
    (h : ∀ S, S <:+ B → S ≠ [] → p (S ++ F) = false) :
    scanRepl p r (B ++ F) = B ++ r := by
  induction B with
  | nil =>
    rcases F with _ | ⟨f, fs⟩
    · exact absurd rfl hFne
    · rw [List.nil_append, scanRepl, hF]; rfl
  | cons b bs ih =>
    have h0 : p (b :: (bs ++ F)) = false := by
      have hh := h (b :: bs) (List.suffix_refl _) (by simp)
      simpa using hh
    rw [List.cons_append, scanRepl, h0]
    simp only [Bool.false_eq_true, if_false, List.cons_append, List.cons.injEq, true_and]
    exact ih fun S hS hne => h S (List.suffix_cons_iff.mpr (Or.inr hS)) hne

theorem scanRepl_structure (p : List Char → Bool) (r l : List Char) :
    scanRepl p r l = l ∨
      ∃ B d, l = B ++ d ∧ scanRepl p r l = B ++ r ∧ p d = true := by
  induction l with
  | nil => exact Or.inl rfl
  | cons c cs ih =>
    by_cases h : p (c :: cs) = true
    · exact Or.inr ⟨[], c :: cs, rfl, by simp [scanRepl, h], h⟩
    · rcases ih with h1 | ⟨B, d, hd1, hd2, hd3⟩
      · left
        simp [scanRepl, h, h1]
      · right
        refine ⟨c :: B, d, by simp [hd1], ?_, hd3⟩
        simp [scanRepl, h, hd2]

theorem scanRepl_chars {p : List Char → Bool} {r l : List Char} {c : Char}
    (h : c ∈ scanRepl p r l) : c ∈ l ∨ c ∈ r := by
  induction l with
  | nil => exact absurd h (by simp [scanRepl])
  | cons a cs ih =>
    rw [scanRepl] at h
    by_cases hp : p (a :: cs) = true
    · rw [hp, if_pos rfl] at h
      exact Or.inr h
    · simp only [hp, Bool.false_eq_true, if_false, List.mem_cons] at h
      rcases h with rfl | h2
      · exact Or.inl (List.mem_cons_self ..)
      · rcases ih h2 with h3 | h3
        · exact Or.inl (List.mem_cons_of_mem _ h3)
        · exact Or.inr h3

theorem matchLine_eq_some {pfx l r : List Char} :
    matchLine pfx l = some r ↔
      ∃ X, X.all (· != '\n') = true ∧ l = pfx ++ X ++ '\n' :: r := by
  constructor
  · intro h
    unfold matchLine at h
    rcases h1 : stripPfx pfx l with _ | r1 <;> simp only [h1] at h
    · exact absurd h (by simp)
    rcases h2 : r1.dropWhile (· != '\n') with _ | ⟨x, rest⟩ <;> simp only [h2] at h
    · exact absurd h (by simp)
    have hx : x = '\n' := by
      by_contra hne
      rw [if_neg hne] at h
      exact absurd h (by simp)
    subst hx
    rw [if_pos rfl] at h
    obtain rfl : rest = r := by simpa using h
    refine ⟨r1.takeWhile (· != '\n'), List.all_takeWhile .., ?_⟩
    rw [stripPfx_eq_some.mp h1, List.append_assoc, ← h2,
      List.takeWhile_append_dropWhile]
  · rintro ⟨X, hX, rfl⟩
    unfold matchLine
    rw [List.append_assoc]
    simp only [stripPfx_eq_some.mpr rfl, dropWhile_all_append hX, List.dropWhile_cons]
    simp

theorem markerWsEnd_none {l : List Char} (hm : matchMarker l = none) :
    markerWsEnd l = false := by
  unfold markerWsEnd
  rw [hm]

theorem markerWsEnd_some {l id rest : List Char} (hm : matchMarker l = some (id, rest)) :
    markerWsEnd l = rest.all isWS := by
  unfold markerWsEnd
  rw [hm]

theorem markerWsEnd_eq_true_iff {l : List Char} :
    markerWsEnd l = true ↔
      ∃ id W, id ≠ [] ∧ id.all isIdChar = true ∧ W.all isWS = true ∧
        l = markerText id ++ W := by
  constructor
  · intro h
    rcases hm : matchMarker l with _ | ⟨id, rest⟩
    · rw [markerWsEnd_none hm] at h
      exact absurd h (by simp)
    · rw [markerWsEnd_some hm] at h
      obtain ⟨hne, hall, heq⟩ := matchMarker_eq_some.mp hm
      exact ⟨id, rest, hne, hall, h, heq⟩
  · rintro ⟨id, W, hne, hall, hW, rfl⟩
    rw [markerWsEnd_some (matchMarker_eq_some.mpr ⟨hne, hall, rfl⟩)]
    exact hW

theorem matchLine_luPfx_marker (id W : List Char) :
    matchLine luPfx (markerText id ++ W) = none := by
  have h : stripPfx luPfx (markerText id ++ W) = none := by
    have h1 : markerText id ++ W = '<' :: ("!-- Note ID: ".data ++ id ++ markerClose ++ W) := by
      simp [markerText, markerOpen]
    rw [h1]
    rfl
  unfold matchLine
  rw [h]

theorem matchFooterAt_zero {l : List Char} (h1 : matchLine footerHead l = none) :
    matchFooterAt l = false := by
  unfold matchFooterAt
  rw [h1]

theorem matchFooterAt_lu {l r3 r4 : List Char} (h1 : matchLine footerHead l = some r3)
    (h2 : matchLine luPfx r3 = some r4) : matchFooterAt l = markerWsEnd r4 := by
  unfold matchFooterAt
  rw [h1]
  show (match matchLine luPfx r3 with
      | some r => markerWsEnd r
      | none => markerWsEnd r3) = markerWsEnd r4
  rw [h2]

theorem matchFooterAt_noLu {l r3 : List Char} (h1 : matchLine footerHead l = some r3)
    (h2 : matchLine luPfx r3 = none) : matchFooterAt l = markerWsEnd r3 := by
  unfold matchFooterAt
  rw [h1]
  show (match matchLine luPfx r3 with
      | some r => markerWsEnd r
      | none => markerWsEnd r3) = markerWsEnd r3
  rw [h2]

theorem matchFooterAt_eq_true_iff {S : List Char} :
    matchFooterAt S = true ↔
      ∃ X G id W, X.all (· != '\n') = true ∧
        (G = [] ∨ ∃ Y, Y.all (· != '\n') = true ∧ G = luPfx ++ Y ++ ['\n']) ∧
        id ≠ [] ∧ id.all isIdChar = true ∧ W.all isWS = true ∧
        S = footerHead ++ X ++ '\n' :: (G ++ markerText id ++ W) := by
  constructor
  · intro h
    rcases h1 : matchLine footerHead S with _ | r3
    · rw [matchFooterAt_zero h1] at h
      exact absurd h (by simp)
    obtain ⟨X, hX, hS⟩ := matchLine_eq_some.mp h1
    rcases h2 : matchLine luPfx r3 with _ | r4
    · rw [matchFooterAt_noLu h1 h2] at h
      obtain ⟨id, W, hne, hall, hW, hr3⟩ := markerWsEnd_eq_true_iff.mp h
      exact ⟨X, [], id, W, hX, Or.inl rfl, hne, hall, hW, by
        rw [hS, hr3]; simp⟩
    · rw [matchFooterAt_lu h1 h2] at h
      obtain ⟨id, W, hne, hall, hW, hr4⟩ := markerWsEnd_eq_true_iff.mp h
      obtain ⟨Y, hY, hr3⟩ := matchLine_eq_some.mp h2
      refine ⟨X, luPfx ++ Y ++ ['\n'], id, W, hX, Or.inr ⟨Y, hY, rfl⟩, hne, hall, hW, ?_⟩
      rw [hS, hr3, hr4]
      simp
  · rintro ⟨X, G, id, W, hX, hG, hne, hall, hW, rfl⟩
    rcases hG with rfl | ⟨Y, hY, rfl⟩
    · have h1 : matchLine footerHead
          (footerHead ++ X ++ '\n' :: ([] ++ markerText id ++ W)) =
          some (markerText id ++ W) := by
        apply matchLine_eq_some.mpr
        exact ⟨X, hX, by simp⟩
      rw [matchFooterAt_noLu h1 (matchLine_luPfx_marker id W)]
      exact markerWsEnd_eq_true_iff.mpr ⟨id, W, hne, hall, hW, rfl⟩
    · have h1 : matchLine footerHead
          (footerHead ++ X ++ '\n' :: ((luPfx ++ Y ++ ['\n']) ++ markerText id ++ W)) =
          some ((luPfx ++ Y ++ ['\n']) ++ markerText id ++ W) := by
        apply matchLine_eq_some.mpr
        exact ⟨X, hX, by simp⟩
      have h2 : matchLine luPfx ((luPfx ++ Y ++ ['\n']) ++ markerText id ++ W) =
          some (markerText id ++ W) := by
        apply matchLine_eq_some.mpr
        exact ⟨Y, hY, by simp⟩
      rw [matchFooterAt_lu h1 h2]
      exact markerWsEnd_eq_true_iff.mpr ⟨id, W, hne, hall, hW, rfl⟩

theorem matchTrailSepAt_eq_true_iff {l : List Char} :
    matchTrailSepAt l = true ↔ ∃ W, W.all isWS = true ∧ l = "\n\n---".data ++ W := by
  constructor
  · intro h
    unfold matchTrailSepAt at h
    rcases h1 : stripPfx "\n\n---".data l with _ | w <;> rw [h1] at h
    · exact absurd h (by simp)
    · exact ⟨w, h, stripPfx_eq_some.mp h1⟩
  · rintro ⟨W, hW, rfl⟩
    unfold matchTrailSepAt
    rw [stripPfx_eq_some.mpr rfl]
    exact hW

theorem matchFooterAt_head_nl {d : List Char} (h : matchFooterAt d = true) :
    ∃ t, d = '\n' :: t := by
  obtain ⟨X, G, id, W, -, -, -, -, -, hd⟩ := matchFooterAt_eq_true_iff.mp h
  exact ⟨_, by rw [hd]; rfl⟩

theorem scanRepl_cons_pos {p : List Char → Bool} {r : List Char} {c : Char}
    {rest : List Char} (h : p (c :: rest) = true) : scanRepl p r (c :: rest) = r := by
  rw [scanRepl, h]
  simp

theorem scanRepl_cons_neg {p : List Char → Bool} {r : List Char} {c : Char}
    {rest : List Char} (h : p (c :: rest) = false) :
    scanRepl p r (c :: rest) = c :: scanRepl p r rest := by
  rw [scanRepl, h]
  simp

theorem tryMarkerChunk_none_eq {l : List Char}
    (hm : matchMarker (l.dropWhile (· == '\n')) = none) : tryMarkerChunk l = none := by
  unfold tryMarkerChunk
  rw [hm]

theorem tryMarkerChunk_some_eq {l id rest : List Char}
    (hm : matchMarker (l.dropWhile (· == '\n')) = some (id, rest)) :
    tryMarkerChunk l = some (rest.dropWhile isWS) := by
  unfold tryMarkerChunk
  rw [hm]

theorem tryMarkerChunk_suffix {l l2 : List Char} (h : tryMarkerChunk l = some l2) :
    l2 <:+ l := by
  rcases hm : matchMarker (l.dropWhile (· == '\n')) with _ | ⟨id, rest⟩
  · rw [tryMarkerChunk_none_eq hm] at h
    exact absurd h (by simp)
  · rw [tryMarkerChunk_some_eq hm] at h
    obtain rfl : rest.dropWhile isWS = l2 := by simpa using h
    obtain ⟨-, -, heq⟩ := matchMarker_eq_some.mp hm
    have s1 : rest.dropWhile isWS <:+ rest := List.dropWhile_suffix _
    have s2 : rest <:+ l.dropWhile (· == '\n') := heq ▸ List.suffix_append _ _
    exact s1.trans (s2.trans (List.dropWhile_suffix _))

theorem markerText_length {id : List Char} : (markerText id).length = 18 + id.length := by
  simp [markerText, markerOpen, markerClose]
  omega

theorem tryMarkerChunk_length {l l2 : List Char} (h : tryMarkerChunk l = some l2) :
    l2.length < l.length := by
  rcases hm : matchMarker (l.dropWhile (· == '\n')) with _ | ⟨id, rest⟩
  · rw [tryMarkerChunk_none_eq hm] at h
    exact absurd h (by simp)
  · rw [tryMarkerChunk_some_eq hm] at h
    obtain rfl : rest.dropWhile isWS = l2 := by simpa using h
    obtain ⟨-, -, heq⟩ := matchMarker_eq_some.mp hm
    have h1 : (rest.dropWhile isWS).length ≤ rest.length :=
      (List.dropWhile_suffix _).length_le
    have h2 : (l.dropWhile (· == '\n')).length = 18 + id.length + rest.length := by
      rw [heq, List.length_append, markerText_length]
    have h3 : (l.dropWhile (· == '\n')).length ≤ l.length :=
      (List.dropWhile_suffix _).length_le
    omega

theorem removeMarkersAux_cons_some {f : Nat} {c : Char} {rest l2 : List Char}
    (h : tryMarkerChunk (c :: rest) = some l2) :
    removeMarkersAux (f + 1) (c :: rest) = removeMarkersAux f l2 := by
  have he : removeMarkersAux (f + 1) (c :: rest) =
      match tryMarkerChunk (c :: rest) with
      | some l2 => removeMarkersAux f l2
      | none => c :: removeMarkersAux f rest := rfl
  rw [he, h]

theorem removeMarkersAux_cons_none {f : Nat} {c : Char} {rest : List Char}
    (h : tryMarkerChunk (c :: rest) = none) :
    removeMarkersAux (f + 1) (c :: rest) = c :: removeMarkersAux f rest := by
  have he : removeMarkersAux (f + 1) (c :: rest) =
      match tryMarkerChunk (c :: rest) with
      | some l2 => removeMarkersAux f l2
      | none => c :: removeMarkersAux f rest := rfl
  rw [he, h]

theorem removeMarkersAux_id {f : Nat} {l : List Char}
    (hn : ∀ S, S <:+ l → matchMarker S = none) : removeMarkersAux f l = l := by
  induction f generalizing l with
  | zero => cases l <;> rfl
  | succ f ih =>
    cases l with
    | nil => rfl
    | cons c rest =>
      have hc : tryMarkerChunk (c :: rest) = none :=
        tryMarkerChunk_none_eq (hn _ (List.dropWhile_suffix _))
      rw [removeMarkersAux_cons_none hc]
      have := ih (l := rest) fun S hS => hn S (List.suffix_cons_iff.mpr (Or.inr hS))
      rw [this]

theorem removeMarkers_id {l : List Char} (h : detectNoteId l = none) :
    removeMarkers l = l :=
  removeMarkersAux_id (detectNoteId_eq_none_iff.mp h)

theorem removeMarkersAux_append_chunk {f : Nat} {A C : List Char}
    (hC : tryMarkerChunk C = some []) (hCne : C ≠ [])
    (hA : ∀ S, S <:+ A → S ≠ [] → tryMarkerChunk (S ++ C) = none)
    (hf : (A ++ C).length ≤ f) :
    removeMarkersAux f (A ++ C) = A := by
  induction A generalizing f with
  | nil =>
    cases C with
    | nil => exact absurd rfl hCne
    | cons c cs =>
      cases f with
      | zero => simp at hf
      | succ f =>
        rw [List.nil_append, removeMarkersAux_cons_some hC]
        cases f <;> rfl
  | cons a as ih =>
    cases f with
    | zero => simp at hf
    | succ f =>
      have h0 : tryMarkerChunk (a :: (as ++ C)) = none := by
        have hh := hA (a :: as) (List.suffix_refl _) (by simp)
        simpa using hh
      rw [List.cons_append, removeMarkersAux_cons_none h0]
      have hr : removeMarkersAux f (as ++ C) = as := by
        apply ih (fun S hS hne => hA S (List.suffix_cons_iff.mpr (Or.inr hS)) hne)
        simp only [List.length_append, List.length_cons] at hf ⊢
        omega
      rw [hr]

theorem removeMarkersAux_no_lt {f : Nat} {l : List Char} (hf : l.length ≤ f)
    (h : ∀ S, S <:+ l → S.head? = some '<' → matchMarker S ≠ none) :
    '<' ∉ removeMarkersAux f l := by
  induction f generalizing l with
  | zero =>
    obtain rfl : l = [] := by
      cases l
      · rfl
      · simp at hf
    simp [removeMarkersAux]
  | succ f ih =>
    cases l with
    | nil => simp [removeMarkersAux]
    | cons c rest =>
      rcases hc : tryMarkerChunk (c :: rest) with _ | l2
      · have hcne : c ≠ '<' := by
          rintro rfl
          rcases hm : matchMarker ('<' :: rest) with _ | ⟨id, r⟩
          · exact (h _ (List.suffix_refl _) rfl) hm
          · have hd : ('<' :: rest).dropWhile (· == '\n') = '<' :: rest := by
              rw [List.dropWhile_cons]
              simp
            rw [tryMarkerChunk_some_eq (hd.symm ▸ hm)] at hc
            exact absurd hc (by simp)
        rw [removeMarkersAux_cons_none hc]
        intro hmem
        rcases List.mem_cons.mp hmem with he | hmem2
        · exact hcne he.symm
        · exact ih (by simpa using Nat.le_of_succ_le_succ (by simpa using hf))
            (fun S hS hh => h S (List.suffix_cons_iff.mpr (Or.inr hS)) hh) hmem2
      · rw [removeMarkersAux_cons_some hc]
        have hsuf : l2 <:+ c :: rest := tryMarkerChunk_suffix hc
        refine ih ?_ (fun S hS hh => h S (hS.trans hsuf) hh)
        have := tryMarkerChunk_length hc
        simp only [List.length_cons] at this hf
        omega

theorem nlCount_append (a b : List Char) : nlCount (a ++ b) = nlCount a + nlCount b :=
  List.countP_append ..

theorem nlCount_no_nl {l : List Char} (h : l.all (· != '\n') = true) : nlCount l = 0 := by
  apply List.countP_eq_zero.mpr
  intro a ha
  have := List.all_eq_true.mp h a ha
  simp only [bne_iff_ne, ne_eq] at this
  simpa using this

theorem nlCount_pos {l : List Char} (h : '\n' ∈ l) : 1 ≤ nlCount l := by
  have : 0 < nlCount l := List.countP_pos_iff.mpr ⟨'\n', h, by simp⟩
  omega

theorem nlCount_suffix_le {S l : List Char} (h : S <:+ l) : nlCount S ≤ nlCount l := by
  obtain ⟨t, rfl⟩ := h
  rw [nlCount_append]
  omega

theorem getLast?_append_right {a b : List Char} (h : b ≠ []) :
    (a ++ b).getLast? = b.getLast? := by
  rw [List.getLast?_append]
  rcases hb : b.getLast? with _ | x
  · exact absurd (List.getLast?_eq_none_iff.mp hb) h
  · rfl

theorem markerText_all_ne_nl {id : List Char} (hall : id.all isIdChar = true) :
    (markerText id).all (· != '\n') = true := by
  apply List.all_eq_true.mpr
  intro x hx
  simp only [bne_iff_ne, ne_eq]
  intro he
  exact nl_not_mem_markerText hall (he ▸ hx)

theorem takeWhile_noNl_break {X r : List Char} (hX : X.all (· != '\n') = true) :
    (X ++ '\n' :: r).takeWhile (· != '\n') = X ∧
      (X ++ '\n' :: r).dropWhile (· != '\n') = '\n' :: r := by
  constructor
  · rw [takeWhile_all_append hX, List.takeWhile_cons]
    simp
  · rw [dropWhile_all_append hX, List.dropWhile_cons]
    simp

theorem last_line_split {A1 A2 L1 L2 : List Char}
    (hL1 : L1.all (· != '\n') = true) (hL2 : L2.all (· != '\n') = true)
    (h : A1 ++ '\n' :: L1 = A2 ++ '\n' :: L2) : A1 = A2 ∧ L1 = L2 := by
  have hr : L1.reverse ++ '\n' :: A1.reverse = L2.reverse ++ '\n' :: A2.reverse := by
    calc L1.reverse ++ '\n' :: A1.reverse = (A1 ++ '\n' :: L1).reverse := by simp
    _ = (A2 ++ '\n' :: L2).reverse := by rw [h]
    _ = L2.reverse ++ '\n' :: A2.reverse := by simp
  have hL1r : L1.reverse.all (· != '\n') = true := by
    rw [List.all_reverse]
    exact hL1
  have hL2r : L2.reverse.all (· != '\n') = true := by
    rw [List.all_reverse]
    exact hL2
  have eL : L1.reverse = L2.reverse := by
    calc L1.reverse
        = (L1.reverse ++ '\n' :: A1.reverse).takeWhile (· != '\n') :=
          ((takeWhile_noNl_break hL1r).1).symm
      _ = (L2.reverse ++ '\n' :: A2.reverse).takeWhile (· != '\n') := by rw [hr]
      _ = L2.reverse := (takeWhile_noNl_break hL2r).1
  have eA : '\n' :: A1.reverse = '\n' :: A2.reverse := by
    calc '\n' :: A1.reverse
        = (L1.reverse ++ '\n' :: A1.reverse).dropWhile (· != '\n') :=
          ((takeWhile_noNl_break hL1r).2).symm
      _ = (L2.reverse ++ '\n' :: A2.reverse).dropWhile (· != '\n') := by rw [hr]
      _ = '\n' :: A2.reverse := (takeWhile_noNl_break hL2r).2
  refine ⟨List.reverse_injective (by simpa using eA), List.reverse_injective eL⟩

theorem luPfx_ne_createdLine {Y D : List Char} : luPfx ++ Y ≠ createdLine D := by
  intro h
  have h2 : '*' :: 'L' :: ("ast Updated:".data ++ Y) =
      '*' :: 'C' :: ("reated: ".data ++ (D ++ ['*'])) := by
    have e1 : luPfx ++ Y = '*' :: 'L' :: ("ast Updated:".data ++ Y) := rfl
    have e2 : createdLine D = '*' :: 'C' :: ("reated: ".data ++ (D ++ ['*'])) := by
      simp [createdLine]
    rw [← e1, ← e2]
    exact h
  simp only [List.cons.injEq] at h2
  exact absurd h2.2.1 (by decide)

theorem createdStyle_ne_lastUpdatedLine {X D : List Char} :
    "*Created:".data ++ X ≠ lastUpdatedLine D := by
  intro h
  have h2 : '*' :: 'C' :: ("reated:".data ++ X) =
      '*' :: 'L' :: ("ast Updated: ".data ++ (D ++ ['*'])) := by
    have e1 : "*Created:".data ++ X = '*' :: 'C' :: ("reated:".data ++ X) := rfl
    have e2 : lastUpdatedLine D = '*' :: 'L' :: ("ast Updated: ".data ++ (D ++ ['*'])) := by
      simp [lastUpdatedLine]
    rw [← e1, ← e2]
    exact h
  simp only [List.cons.injEq] at h2
  exact absurd h2.2.1 (by decide)

theorem luPfx_ne_lastUpdatedLine_aux {Y : List Char} : luPfx ++ Y ≠ "---".data := by
  intro h
  have h2 : '*' :: 'L' :: ("ast Updated:".data ++ Y) = '-' :: '-' :: ['-'] := by
    have e1 : luPfx ++ Y = '*' :: 'L' :: ("ast Updated:".data ++ Y) := rfl
    rw [← e1]
    exact h
  simp only [List.cons.injEq] at h2
  exact absurd h2.1 (by decide)

theorem createdStyle_ne_dashes {X : List Char} : "*Created:".data ++ X ≠ "---".data := by
  intro h
  have h2 : '*' :: 'C' :: ("reated:".data ++ X) = '-' :: '-' :: ['-'] := by
    have e1 : "*Created:".data ++ X = '*' :: 'C' :: ("reated:".data ++ X) := rfl
    rw [← e1]
    exact h
  simp only [List.cons.injEq] at h2
  exact absurd h2.1 (by decide)

theorem suffix_append_split {S A C : List Char} (h : S <:+ A ++ C) :
    (∃ T, T <:+ A ∧ S = T ++ C) ∨ S <:+ C := by
  obtain ⟨t, ht⟩ := h
  rcases List.append_eq_append_iff.mp ht with ⟨e, he1, he2⟩ | ⟨e, he1, he2⟩
  · exact Or.inl ⟨e, ⟨t, he1.symm⟩, he2⟩
  · exact Or.inr ⟨e, he2.symm⟩

theorem getLast?_suffix {S l : List Char} (h : S <:+ l) (hne : S ≠ []) :
    S.getLast? = l.getLast? := by
  obtain ⟨t, rfl⟩ := h
  exact (getLast?_append_right hne).symm

theorem all_false_of_getLast {S : List Char} {c : Char} (h : S.getLast? = some c)
    (hc : (c == '\n') = false) : S.all (· == '\n') = false := by
  by_contra hb
  have hall : S.all (· == '\n') = true := by simpa using hb
  have hmem := List.mem_of_getLast?_eq_some h
  have := List.all_eq_true.mp hall c hmem
  rw [this] at hc
  exact absurd hc (by simp)

theorem dropWhile_append_not_all {p : Char → Bool} {S T : List Char}
    (h : S.all p = false) :
    (S ++ T).dropWhile p = S.dropWhile p ++ T ∧ S.dropWhile p ≠ [] := by
  induction S with
  | nil => simp at h
  | cons c cs ih =>
    by_cases hc : p c = true
    · have hcs : cs.all p = false := by
        simp only [List.all_cons, hc, Bool.true_and] at h
        exact h
      rw [List.cons_append, List.dropWhile_cons, hc, if_pos rfl,
        List.dropWhile_cons, hc, if_pos rfl]
      exact ih hcs
    · have hc' : p c = false := by simpa using hc
      rw [List.cons_append, List.dropWhile_cons, hc', List.dropWhile_cons, hc']
      simp

theorem sep_tails_no_marker :
    ∀ S, S <:+ "\n\n---".data → matchMarker S = none := by
  have hd : ∀ S ∈ ("\n\n---".data).tails, matchMarker S = none := by decide
  intro S hS
  exact hd S ((List.mem_tails ..).mpr hS)

theorem detect_none_append_sep {B : List Char} (h : detectNoteId B = none) :
    ∀ S, S <:+ B ++ "\n\n---".data → matchMarker S = none := by
  intro S hS
  rcases suffix_append_split hS with ⟨T, hT, rfl⟩ | hSF
  · rcases hm : matchMarker (T ++ "\n\n---".data) with _ | ⟨id, r⟩
    · rfl
    · exfalso
      have hm2 : matchMarker (T ++ '\n' :: "\n---".data) = some (id, r) := hm
      obtain ⟨r0, hr0⟩ := matchMarker_of_append_nl hm2
      rw [detectNoteId_eq_none_iff.mp h T hT] at hr0
      exact absurd hr0 (by simp)
  · exact sep_tails_no_marker S hSF

theorem detectNoteId_none_append_sep {B : List Char} (h : detectNoteId B = none) :
    detectNoteId (B ++ "\n\n---".data) = none :=
  detectNoteId_eq_none_iff.mpr (detect_none_append_sep h)

theorem footerHead_split : footerHead = "\n\n---".data ++ '\n' :: "*Created:".data := rfl

theorem markerText_getLast (id : List Char) : (markerText id).getLast? = some '>' := by
  have h1 : (markerClose : List Char) ≠ [] := by decide
  have h2 : id ++ markerClose ≠ [] := by
    intro h
    rw [List.append_eq_nil] at h
    exact h1 h.2
  rw [markerText, List.append_assoc, getLast?_append_right h2, getLast?_append_right h1]
  decide

theorem specFooter_getLast (c lu : Bool) (D I : List Char) :
    (specFooter c lu D I).getLast? = some '>' := by
  have hmt : markerText I ≠ [] := by
    intro h
    have := markerText_getLast I
    rw [h] at this
    simp at this
  unfold specFooter
  rw [getLast?_append_right (by simp)]
  have : ('\n' :: markerText I).getLast? = (['\n'] ++ markerText I).getLast? := rfl
  rw [this, getLast?_append_right hmt, markerText_getLast]

theorem specFooter_ne_nil (c lu : Bool) (D I : List Char) :
    specFooter c lu D I ≠ [] := by
  intro h
  have := specFooter_getLast c lu D I
  rw [h] at this
  simp at this

theorem W_nil_of_marker_end {S' X G id W : List Char}
    (hlast : S'.getLast? = some '>') (hW : W.all isWS = true)
    (hSeq : S' = footerHead ++ X ++ '\n' :: (G ++ markerText id ++ W)) : W = [] := by
  cases W with
  | nil => rfl
  | cons w ws =>
    exfalso
    have h1 : S'.getLast? = (w :: ws).getLast? := by
      rw [hSeq]
      have he : footerHead ++ X ++ '\n' :: (G ++ markerText id ++ (w :: ws)) =
          (footerHead ++ X ++ '\n' :: (G ++ markerText id)) ++ (w :: ws) := by
        simp
      rw [he]
      exact getLast?_append_right (by simp)
    rw [hlast] at h1
    have h2 := List.mem_of_getLast?_eq_some h1.symm
    have h3 := List.all_eq_true.mp hW _ h2
    exact absurd h3 (by decide)

theorem createdLine_all_ne_nl {D : List Char} (hD : D.all (· != '\n') = true) :
    (createdLine D).all (· != '\n') = true := by
  have hlit : ("*Created: ".data).all (· != '\n') = true := by decide
  simp [createdLine, List.all_append, hD, hlit]

theorem lastUpdatedLine_all_ne_nl {D : List Char} (hD : D.all (· != '\n') = true) :
    (lastUpdatedLine D).all (· != '\n') = true := by
  have hlit : ("*Last Updated: ".data).all (· != '\n') = true := by decide
  simp [lastUpdatedLine, List.all_append, hD, hlit]

theorem createdStyle_all_ne_nl {X : List Char} (hX : X.all (· != '\n') = true) :
    ("*Created:".data ++ X).all (· != '\n') = true := by
  have hlit : ("*Created:".data).all (· != '\n') = true := by decide
  simp [List.all_append, hX, hlit]

theorem luY_all_ne_nl {Y : List Char} (hY : Y.all (· != '\n') = true) :
    (luPfx ++ Y).all (· != '\n') = true := by
  have hlit : (luPfx).all (· != '\n') = true := by decide
  simp [List.all_append, hY, hlit]

theorem nil_of_eq_append_self {S A : List Char} (h : A = S ++ A) : S = [] := by
  have hlen := congrArg List.length h
  rw [List.length_append] at hlen
  have : S.length = 0 := by omega
  exact List.length_eq_zero.mp this

theorem no_match_inside_created {S D I : List Char} (lu : Bool) (hSne : S ≠ [])
    (hD : D.all (· != '\n') = true) (hIne : I ≠ []) (hIall : I.all isIdChar = true)
    (h : matchFooterAt (S ++ specFooter true lu D I) = true) : False := by
  obtain ⟨X, G, id, W, hX, hG, hidne, hidall, hW, hSeq⟩ := matchFooterAt_eq_true_iff.mp h
  have hlast : (S ++ specFooter true lu D I).getLast? = some '>' := by
    rw [getLast?_append_right (specFooter_ne_nil _ _ _ _), specFooter_getLast]
  have hWnil : W = [] := W_nil_of_marker_end hlast hW hSeq
  subst hWnil
  have hCR := createdLine_all_ne_nl hD
  have hLU := lastUpdatedLine_all_ne_nl hD
  have hmtid := markerText_all_ne_nl hidall
  have hmtI := markerText_all_ne_nl hIall
  cases lu with
  | true =>
    rcases hG with rfl | ⟨Y, hY, rfl⟩
    · have e1 : (footerHead ++ X) ++ '\n' :: markerText id =
          (S ++ "\n\n---".data ++ '\n' :: createdLine D ++ '\n' :: lastUpdatedLine D) ++
            '\n' :: markerText I := by
        simpa [specFooter] using hSeq.symm
      have s1 := last_line_split hmtid hmtI e1
      have e2 : "\n\n---".data ++ '\n' :: ("*Created:".data ++ X) =
          (S ++ "\n\n---".data ++ '\n' :: createdLine D) ++ '\n' :: lastUpdatedLine D := by
        simpa [footerHead_split] using s1.1
      have s2 := last_line_split (createdStyle_all_ne_nl hX) hLU e2
      exact createdStyle_ne_lastUpdatedLine s2.2
    · have e1 : (footerHead ++ X ++ '\n' :: (luPfx ++ Y)) ++ '\n' :: markerText id =
          (S ++ "\n\n---".data ++ '\n' :: createdLine D ++ '\n' :: lastUpdatedLine D) ++
            '\n' :: markerText I := by
        simpa [specFooter] using hSeq.symm
      have s1 := last_line_split hmtid hmtI e1
      have e2 : (footerHead ++ X) ++ '\n' :: (luPfx ++ Y) =
          (S ++ "\n\n---".data ++ '\n' :: createdLine D) ++ '\n' :: lastUpdatedLine D := by
        simpa using s1.1
      have s2 := last_line_split (luY_all_ne_nl hY) hLU e2
      have e3 : "\n\n---".data ++ '\n' :: ("*Created:".data ++ X) =
          (S ++ "\n\n---".data) ++ '\n' :: createdLine D := by
        simpa [footerHead_split] using s2.1
      have s3 := last_line_split (createdStyle_all_ne_nl hX) hCR e3
      exact hSne (nil_of_eq_append_self s3.1)
  | false =>
    rcases hG with rfl | ⟨Y, hY, rfl⟩
    · have e1 : (footerHead ++ X) ++ '\n' :: markerText id =
          (S ++ "\n\n---".data ++ '\n' :: createdLine D) ++ '\n' :: markerText I := by
        simpa [specFooter] using hSeq.symm
      have s1 := last_line_split hmtid hmtI e1
      have e2 : "\n\n---".data ++ '\n' :: ("*Created:".data ++ X) =
          (S ++ "\n\n---".data) ++ '\n' :: createdLine D := by
        simpa [footerHead_split] using s1.1
      have s2 := last_line_split (createdStyle_all_ne_nl hX) hCR e2
      exact hSne (nil_of_eq_append_self s2.1)
    · have e1 : (footerHead ++ X ++ '\n' :: (luPfx ++ Y)) ++ '\n' :: markerText id =
          (S ++ "\n\n---".data ++ '\n' :: createdLine D) ++ '\n' :: markerText I := by
        simpa [specFooter] using hSeq.symm
      have s1 := last_line_split hmtid hmtI e1
      have e2 : (footerHead ++ X) ++ '\n' :: (luPfx ++ Y) =
          (S ++ "\n\n---".data) ++ '\n' :: createdLine D := by
        simpa using s1.1
      have s2 := last_line_split (luY_all_ne_nl hY) hCR e2
      exact luPfx_ne_createdLine s2.2

theorem created_space_split : ("*Created: ".data : List Char) = "*Created:".data ++ [' '] := rfl

theorem lu_space_split : ("*Last Updated: ".data : List Char) = luPfx ++ [' '] := rfl

theorem sep_split : ("\n\n---".data : List Char) = '\n' :: '\n' :: "---".data := rfl

theorem space_D_star_all {D : List Char} (hD : D.all (· != '\n') = true) :
    (' ' :: (D ++ ['*'])).all (· != '\n') = true := by
  simp [List.all_append, hD]

theorem matchFooterAt_specFooter_created {D I : List Char} (lu : Bool)
    (hD : D.all (· != '\n') = true) (hIne : I ≠ []) (hIall : I.all isIdChar = true) :
    matchFooterAt (specFooter true lu D I) = true := by
  apply matchFooterAt_eq_true_iff.mpr
  cases lu with
  | false =>
    refine ⟨' ' :: (D ++ ['*']), [], I, [], space_D_star_all hD, Or.inl rfl, hIne, hIall,
      rfl, ?_⟩
    simp [specFooter, footerHead_split, createdLine, created_space_split]
  | true =>
    refine ⟨' ' :: (D ++ ['*']), luPfx ++ (' ' :: (D ++ ['*'])) ++ ['\n'], I, [],
      space_D_star_all hD, Or.inr ⟨' ' :: (D ++ ['*']), space_D_star_all hD, rfl⟩,
      hIne, hIall, rfl, ?_⟩
    simp [specFooter, footerHead_split, createdLine, created_space_split,
      lastUpdatedLine, lu_space_split, luPfx]

theorem nlCount_cons_nl (r : List Char) : nlCount ('\n' :: r) = nlCount r + 1 := by
  simp [nlCount, List.countP_cons]

theorem stripFooter_append_created {B D I : List Char} (lu : Bool)
    (hD : D.all (· != '\n') = true) (hIne : I ≠ []) (hIall : I.all isIdChar = true) :
    stripFooterStep (B ++ specFooter true lu D I) = B := by
  have h := scanRepl_append (r := []) (B := B) (F := specFooter true lu D I)
    (specFooter_ne_nil _ _ _ _) (matchFooterAt_specFooter_created lu hD hIne hIall)
    (fun S hS hSne => by
      cases hb : matchFooterAt (S ++ specFooter true lu D I)
      · rfl
      · exact absurd hb (fun hb => no_match_inside_created lu hSne hD hIne hIall hb))
  simpa [stripFooterStep] using h

theorem stripFooter_noop_FF {B D I : List Char}
    (hIne : I ≠ []) (hIall : I.all isIdChar = true) :
    stripFooterStep (B ++ specFooter false false D I) = B ++ specFooter false false D I := by
  apply scanRepl_id
  intro S hS hSne
  cases hb : matchFooterAt S
  · rfl
  exfalso
  obtain ⟨X, G, id, W, hX, hG, hidne, hidall, hW, hSeq⟩ := matchFooterAt_eq_true_iff.mp hb
  have hmtid := markerText_all_ne_nl hidall
  have hmtI := markerText_all_ne_nl hIall
  rcases suffix_append_split hS with ⟨T, hT, rfl⟩ | hSF
  · have hlast : (T ++ specFooter false false D I).getLast? = some '>' := by
      rw [getLast?_append_right (specFooter_ne_nil _ _ _ _), specFooter_getLast]
    have hWnil := W_nil_of_marker_end hlast hW hSeq
    subst hWnil
    rcases hG with rfl | ⟨Y, hY, rfl⟩
    · have e1 : (footerHead ++ X) ++ '\n' :: markerText id =
          ((T ++ ['\n']) ++ '\n' :: "---".data) ++ '\n' :: markerText I := by
        simpa [specFooter, sep_split] using hSeq.symm
      have s1 := last_line_split hmtid hmtI e1
      have e2 : "\n\n---".data ++ '\n' :: ("*Created:".data ++ X) =
          (T ++ ['\n']) ++ '\n' :: "---".data := by
        simpa [footerHead_split, sep_split] using s1.1
      have s2 := last_line_split (createdStyle_all_ne_nl hX)
        (by decide : ("---".data).all (· != '\n') = true) e2
      exact createdStyle_ne_dashes s2.2
    · have e1 : (footerHead ++ X ++ '\n' :: (luPfx ++ Y)) ++ '\n' :: markerText id =
          ((T ++ ['\n']) ++ '\n' :: "---".data) ++ '\n' :: markerText I := by
        simpa [specFooter, sep_split] using hSeq.symm
      have s1 := last_line_split hmtid hmtI e1
      have e2 : (footerHead ++ X) ++ '\n' :: (luPfx ++ Y) =
          (T ++ ['\n']) ++ '\n' :: "---".data := by
        simpa using s1.1
      have s2 := last_line_split (luY_all_ne_nl hY)
        (by decide : ("---".data).all (· != '\n') = true) e2
      exact luPfx_ne_lastUpdatedLine_aux s2.2
  · have h1 : nlCount S ≤ nlCount (specFooter false false D I) := nlCount_suffix_le hSF
    have h2 : nlCount (specFooter false false D I) = 3 := by
      have he : specFooter false false D I = "\n\n---".data ++ '\n' :: markerText I := by
        simp [specFooter]
      have hsep : nlCount ("\n\n---".data) = 2 := by decide
      rw [he, nlCount_append, hsep, nlCount_cons_nl (markerText I), nlCount_no_nl hmtI]
    have h3 : 4 ≤ nlCount S := by
      rw [hSeq]
      have he : footerHead ++ X ++ '\n' :: (G ++ markerText id ++ W) =
          footerHead ++ (X ++ '\n' :: (G ++ markerText id ++ W)) := by simp
      rw [he, nlCount_append, nlCount_append, nlCount_cons_nl]
      have hfh : nlCount footerHead = 3 := by decide
      omega
    omega

theorem tryMarkerChunk_nl_marker {I : List Char} (hIne : I ≠ [])
    (hIall : I.all isIdChar = true) :
    tryMarkerChunk ('\n' :: markerText I) = some [] := by
  have hmt : markerText I = '<' :: ("!-- Note ID: ".data ++ I ++ markerClose) := by
    simp [markerText, markerOpen]
  have hdw : ('\n' :: markerText I).dropWhile (· == '\n') = markerText I := by
    rw [List.dropWhile_cons, if_pos (by decide), hmt, List.dropWhile_cons,
      if_neg (by decide)]
  have hm : matchMarker (markerText I) = some (I, []) :=
    matchMarker_eq_some.mpr ⟨hIne, hIall, by simp⟩
  rw [tryMarkerChunk_some_eq (by rw [hdw]; exact hm)]
  rfl

theorem no_chunk_in_sep_tail {B I : List Char} (hB : detectNoteId B = none) :
    ∀ S, S <:+ B ++ "\n\n---".data → S ≠ [] →
      tryMarkerChunk (S ++ '\n' :: markerText I) = none := by
  intro S hS hSne
  rcases hc : tryMarkerChunk (S ++ '\n' :: markerText I) with _ | l2
  · rfl
  exfalso
  rcases hm : matchMarker ((S ++ '\n' :: markerText I).dropWhile (· == '\n')) with _ | ⟨id, r⟩
  · rw [tryMarkerChunk_none_eq hm] at hc
    exact absurd hc (by simp)
  · have hlS : S.getLast? = some '-' := by
      rw [getLast?_suffix hS hSne, getLast?_append_right (by decide)]
      decide
    have hnall : S.all (· == '\n') = false := all_false_of_getLast hlS (by decide)
    obtain ⟨hdw, -⟩ := dropWhile_append_not_all (T := '\n' :: markerText I) hnall
    rw [hdw] at hm
    obtain ⟨r0, hr0⟩ := matchMarker_of_append_nl hm
    have hsuffix : S.dropWhile (· == '\n') <:+ B ++ "\n\n---".data :=
      (List.dropWhile_suffix _).trans hS
    rw [detect_none_append_sep hB _ hsuffix] at hr0
    exact absurd hr0 (by simp)

theorem removeMarkers_FF {B D I : List Char} (hB : detectNoteId B = none)
    (hIne : I ≠ []) (hIall : I.all isIdChar = true) :
    removeMarkers (B ++ specFooter false false D I) = B ++ "\n\n---".data := by
  have he : B ++ specFooter false false D I =
      (B ++ "\n\n---".data) ++ ('\n' :: markerText I) := by
    simp [specFooter]
  unfold removeMarkers
  rw [he]
  exact removeMarkersAux_append_chunk (tryMarkerChunk_nl_marker hIne hIall) (by simp)
    (no_chunk_in_sep_tail hB) (le_refl _)

theorem stripTrailSep_append_sep (B : List Char) :
    stripTrailSep (B ++ "\n\n---".data) = B := by
  have h := scanRepl_append (r := []) (B := B) (F := "\n\n---".data) (by decide)
    (by decide : matchTrailSepAt "\n\n---".data = true)
    (fun S hS hSne => by
      cases hb : matchTrailSepAt (S ++ "\n\n---".data)
      · rfl
      exfalso
      obtain ⟨W, hW, hEq⟩ := matchTrailSepAt_eq_true_iff.mp hb
      have hlen : S.length = W.length := by
        have hl := congrArg List.length hEq
        simp only [List.length_append] at hl
        omega
      have hWne : W ≠ [] := by
        intro h0
        rw [h0] at hlen
        simp only [List.length_nil] at hlen
        exact hSne (List.length_eq_zero.mp hlen)
      have h1 : (S ++ "\n\n---".data).getLast? = some '-' := by
        rw [getLast?_append_right (by decide)]
        decide
      have h2 : (S ++ "\n\n---".data).getLast? = W.getLast? := by
        rw [hEq, getLast?_append_right hWne]
      rw [h1] at h2
      have h3 := List.mem_of_getLast?_eq_some h2.symm
      have h4 := List.all_eq_true.mp hW _ h3
      exact absurd h4 (by decide))
  simpa [stripTrailSep] using h

theorem strip_chain_created {B D I : List Char} (lu : Bool)
    (hB : detectNoteId B = none) (hsep : stripTrailSep B = B)
    (hD : D.all (· != '\n') = true) (hIne : I ≠ []) (hIall : I.all isIdChar = true) :
    collapseTrailing (stripTrailSep (removeMarkers (stripFooterStep
      (B ++ specFooter true lu D I)))) = collapseTrailing B := by
  rw [stripFooter_append_created lu hD hIne hIall, removeMarkers_id hB, hsep]

theorem strip_chain_FF {B D I : List Char} (hB : detectNoteId B = none)
    (hIne : I ≠ []) (hIall : I.all isIdChar = true) :
    collapseTrailing (stripTrailSep (removeMarkers (stripFooterStep
      (B ++ specFooter false false D I)))) = collapseTrailing B := by
  rw [stripFooter_noop_FF hIne hIall, removeMarkers_FF hB hIne hIall,
    stripTrailSep_append_sep]

theorem collapse_allNl {l : List Char}
    (h : (collapseTrailing l).all (· == '\n') = true) : l.all (· == '\n') = true := by
  induction l with
  | nil => rfl
  | cons c rest ih =>
    by_cases hp : matchTrailNlAt (c :: rest) = true
    · exact ((by simpa [matchTrailNlAt] using hp : 2 ≤ (c :: rest).length ∧ _)).2
    · have hp' : matchTrailNlAt (c :: rest) = false := by simpa using hp
      unfold collapseTrailing at h ih
      rw [scanRepl_cons_neg hp'] at h
      simp only [List.all_cons, Bool.and_eq_true] at h ⊢
      exact ⟨h.1, ih h.2⟩

theorem collapse_idem (l : List Char) :
    collapseTrailing (collapseTrailing l) = collapseTrailing l := by
  induction l with
  | nil => rfl
  | cons c rest ih =>
    by_cases hp : matchTrailNlAt (c :: rest) = true
    · have h1 : collapseTrailing (c :: rest) = ['\n'] := scanRepl_cons_pos hp
      rw [h1]
      rfl
    · have hp' : matchTrailNlAt (c :: rest) = false := by simpa using hp
      unfold collapseTrailing at ih ⊢
      rw [scanRepl_cons_neg hp']
      have hp2 : matchTrailNlAt (c :: scanRepl matchTrailNlAt ['\n'] rest) = false := by
        by_contra hb
        have hb' : matchTrailNlAt (c :: scanRepl matchTrailNlAt ['\n'] rest) = true := by
          simpa using hb
        simp only [matchTrailNlAt, Bool.and_eq_true, decide_eq_true_eq,
          List.all_cons] at hb'
        obtain ⟨hlen, hcnl, hall⟩ := hb'
        have hrest : rest.all (· == '\n') = true := collapse_allNl hall
        cases rest with
        | nil => simp [scanRepl] at hlen
        | cons d ds =>
          have : matchTrailNlAt (c :: d :: ds) = true := by
            simp only [matchTrailNlAt, Bool.and_eq_true, decide_eq_true_eq,
              List.all_cons] at hrest ⊢
            refine ⟨by simp only [List.length_cons]; omega, hcnl, hrest⟩
          exact absurd this (by simp [hp'])
      rw [scanRepl_cons_neg hp2, ih]

/-- C1 (amended): render-then-strip round-trips for every body that contains
no identity marker and does not end in a trailing standalone separator:
stripping the result of appending the full update footer (Created line,
Last-Updated line and identity marker) built for a non-empty `[A-F0-9-]`
identifier to such a body yields the body normalized to at most one trailing
newline.  (As stated over all marker-free, footer-free bodies the claim fails:
a body ending in a bare `\n\n---` separator is altered by the separator-removal
step once the appended footer has been stripped.) -/
theorem strip_of_renderUpdate_eq_collapseTrailing (B D I : List Char)
    (hB : detectNoteId B = none) (hsep : stripTrailSep B = B)
    (hD : D.all (· != '\n') = true) (hIne : I ≠ []) (hIall : I.all isIdChar = true) :
    BatchUpdate.stripExistingFooter (B ++ BatchUpdate.buildUpdateFooter I D true true) =
      collapseTrailing B := by
  have he : BatchUpdate.buildUpdateFooter I D true true = specFooter true true D I := by
    simp [BatchUpdate.buildUpdateFooter, specFooter]
  unfold BatchUpdate.stripExistingFooter
  rw [he]
  exact strip_chain_created true hB hsep hD hIne hIall

/-- Witness for C1 at a concrete body, date string and identifier. -/
theorem strip_of_renderUpdate_witness :
    detectNoteId "Hello".data = none ∧
    BatchUpdate.stripExistingFooter
        ("Hello".data ++ BatchUpdate.buildUpdateFooter ['A'] "d".data true true) =
      collapseTrailing "Hello".data :=
  ⟨by decide,
   strip_of_renderUpdate_eq_collapseTrailing "Hello".data "d".data ['A']
     (by decide) (by decide) (by decide) (by decide) (by decide)⟩

/-- Counterexample to C1 as stated: the body `"x\n\n---"` contains no identity
marker (hence no footer), yet stripping the rendered result gives `"x"`, not
the body normalized to at most one trailing newline (`"x\n\n---"`). -/
theorem strip_of_renderUpdate_cex :
    detectNoteId "x\n\n---".data = none ∧
    BatchUpdate.stripExistingFooter
        ("x\n\n---".data ++ BatchUpdate.buildUpdateFooter ['A'] "d".data true true) ≠
      collapseTrailing "x\n\n---".data := by
  exact ⟨by decide, by decide⟩

/-- C2 (amended): stripping removes every detectable identity marker from a
body that contains at least one marker, provided every occurrence of the
character `<` in the body begins a well-formed marker.  (As stated over all
bodies with at least one marker the claim fails: the global marker removal
never rescans the text it has already emitted, so deleting a marker can
juxtapose surrounding text into a new well-formed marker that `detect` then
finds in the stripped body.) -/
theorem detect_strip_none_of_guarded (B : List Char)
    (hN : detectNoteId B ≠ none)
    (hG : ∀ S ∈ B.tails, S.head? = some '<' → (matchMarker S).isSome = true) :
    detectNoteId (Create.stripExistingFooter B) = none := by
  have hG2 : ∀ S, S <:+ B → S.head? = some '<' → (matchMarker S).isSome = true :=
    fun S hS => hG S ((List.mem_tails ..).mpr hS)
  unfold Create.stripExistingFooter
  have hB1 : ∀ S, S <:+ stripFooterStep B → S.head? = some '<' →
      (matchMarker S).isSome = true := by
    rcases scanRepl_structure matchFooterAt [] B with hid | ⟨B1, d, hBd, hres, hd⟩
    · intro S hS
      apply hG2
      have h1 : stripFooterStep B = B := hid
      rw [h1] at hS
      exact hS
    · obtain ⟨t, hdt⟩ := matchFooterAt_head_nl hd
      intro S hS hhead
      have h1 : stripFooterStep B = B1 := by
        have : stripFooterStep B = B1 ++ [] := hres
        simpa using this
      rw [h1] at hS
      have h2 : S ++ d <:+ B := by
        obtain ⟨u, hu⟩ := hS
        exact ⟨u, by rw [hBd, ← hu]; simp⟩
      have h3 : (S ++ d).head? = some '<' := by
        cases S with
        | nil => simp at hhead
        | cons s ss => simpa using hhead
      have h4 := hG2 _ h2 h3
      rw [hdt] at h4
      obtain ⟨⟨id, r⟩, hm⟩ := Option.isSome_iff_exists.mp h4
      obtain ⟨r0, hr0⟩ := matchMarker_of_append_nl hm
      simp [hr0]
  have h5 : '<' ∉ removeMarkers (stripFooterStep B) :=
    removeMarkersAux_no_lt (Nat.le_refl _) (fun S hS hh h0 => by
      have := hB1 S hS hh
      rw [h0] at this
      simp at this)
  rcases hdet : detectNoteId (collapseTrailing (stripTrailSep
      (removeMarkers (stripFooterStep B)))) with _ | id2
  · rfl
  exfalso
  have h6 := detectNoteId_some_lt hdet
  rcases scanRepl_chars h6 with h7 | h7
  · rcases scanRepl_chars h7 with h8 | h8
    · exact h5 h8
    · simp at h8
  · simp at h7

/-- Witness for C2 at a concrete body containing one stray marker. -/
theorem detect_strip_none_witness :
    detectNoteId "a\n<!-- Note ID: AB-1 -->".data ≠ none ∧
    detectNoteId (Create.stripExistingFooter "a\n<!-- Note ID: AB-1 -->".data) = none :=
  ⟨by decide,
   detect_strip_none_of_guarded "a\n<!-- Note ID: AB-1 -->".data (by decide) (by decide)⟩

/-- Counterexample to C2 as stated: this body contains one well-formed marker,
but removing it joins the surrounding text into a new marker, so `detect` on
the stripped body still finds an identifier. -/
theorem detect_strip_cex_juxtaposition :
    (detectNoteId "<!-- Note ID: A <!-- Note ID: B -->-->".data).isSome = true ∧
    detectNoteId
        (Create.stripExistingFooter "<!-- Note ID: A <!-- Note ID: B -->-->".data) ≠
      none := by
  exact ⟨by decide, by decide⟩

/-- C3 (amended): stripping is idempotent on every body whose stripped form
contains no detectable identity marker and does not end in a trailing
standalone separator: under those two conditions
`strip (strip B) = strip B`.  (As stated for every body the claim fails:
a body ending in two stacked `\n\n---` separators keeps one separator after
the first strip, which the second strip then removes.) -/
theorem strip_idempotent_of_clean (B : List Char)
    (h1 : detectNoteId (Create.stripExistingFooter B) = none)
    (h2 : stripTrailSep (Create.stripExistingFooter B) = Create.stripExistingFooter B) :
    Create.stripExistingFooter (Create.stripExistingFooter B) =
      Create.stripExistingFooter B := by
  have hstep1 : stripFooterStep (Create.stripExistingFooter B) =
      Create.stripExistingFooter B := by
    apply scanRepl_id
    intro S hS hSne
    cases hb : matchFooterAt S
    · rfl
    exfalso
    obtain ⟨X, G, id, W, hX, hG, hidne, hidall, hW, hSeq⟩ :=
      matchFooterAt_eq_true_iff.mp hb
    have hmm : matchMarker (markerText id ++ W) = some (id, W) :=
      matchMarker_eq_some.mpr ⟨hidne, hidall, rfl⟩
    have hsuf : markerText id ++ W <:+ S := by
      refine ⟨footerHead ++ X ++ '\n' :: G, ?_⟩
      rw [hSeq]
      simp
    have := detectNoteId_eq_none_iff.mp h1 _ (hsuf.trans hS)
    rw [this] at hmm
    exact absurd hmm (by simp)
  have hstep2 : removeMarkers (Create.stripExistingFooter B) =
      Create.stripExistingFooter B := removeMarkers_id h1
  have hstep4 : collapseTrailing (Create.stripExistingFooter B) =
      Create.stripExistingFooter B := by
    show collapseTrailing (collapseTrailing (stripTrailSep
      (removeMarkers (stripFooterStep B)))) = _
    rw [collapse_idem]
    rfl
  show collapseTrailing (stripTrailSep (removeMarkers (stripFooterStep
    (Create.stripExistingFooter B)))) = Create.stripExistingFooter B
  rw [hstep1, hstep2, h2, hstep4]

/-- Witness for C3 at a concrete body with excess trailing newlines. -/
theorem strip_idempotent_witness :
    detectNoteId (Create.stripExistingFooter "ok\n\n\n".data) = none ∧
    Create.stripExistingFooter (Create.stripExistingFooter "ok\n\n\n".data) =
      Create.stripExistingFooter "ok\n\n\n".data :=
  ⟨by decide, strip_idempotent_of_clean "ok\n\n\n".data (by decide) (by decide)⟩

/-- Counterexample to C3 as stated: the body `"x\n\n---\n\n---"` strips to
`"x\n\n---"`, and stripping again gives `"x"`, so `strip` is not idempotent
on every body. -/
theorem strip_idempotent_cex_double_sep :
    Create.stripExistingFooter (Create.stripExistingFooter "x\n\n---\n\n---".data) ≠
      Create.stripExistingFooter "x\n\n---\n\n---".data := by
  decide

/-- C5 (amended): the footer-stripping step removes a complete trailing
standardized footer for three of the four combinations of the two optional
lines — Created present (with or without Last-Updated), and neither line
present — returning the bare body normalized to at most one trailing newline
(for a bare body with no marker and no trailing standalone separator).  The
fourth combination, a footer containing only a Last-Updated line, is not
removed: the footer regex requires the Created line, so only the identity
marker is stripped and the separator and Last-Updated line remain. -/
theorem strip_removes_footer_three_combos (B D I : List Char) (c lu : Bool)
    (hcl : lu = true → c = true)
    (hB : detectNoteId B = none) (hsep : stripTrailSep B = B)
    (hD : D.all (· != '\n') = true) (hIne : I ≠ []) (hIall : I.all isIdChar = true) :
    Create.stripExistingFooter (B ++ specFooter c lu D I) = collapseTrailing B := by
  unfold Create.stripExistingFooter
  cases c with
  | true => exact strip_chain_created lu hB hsep hD hIne hIall
  | false =>
    cases lu with
    | false => exact strip_chain_FF hB hIne hIall
    | true => exact absurd (hcl rfl) (by simp)

/-- Witness for C5 at a concrete body and a Created-only footer. -/
theorem strip_removes_footer_witness :
    detectNoteId "Hi".data = none ∧
    Create.stripExistingFooter ("Hi".data ++ specFooter true false "d".data ['B']) =
      collapseTrailing "Hi".data :=
  ⟨by decide,
   strip_removes_footer_three_combos "Hi".data "d".data ['B'] true false
     (fun _ => rfl) (by decide) (by decide) (by decide) (by decide) (by decide)⟩

/-- Counterexample to C5 as stated: a footer with only a Last-Updated line is
not removed — stripping leaves the separator and the Last-Updated line. -/
theorem strip_footer_lastUpdatedOnly_cex :
    detectNoteId "Hello".data = none ∧
    Create.stripExistingFooter ("Hello".data ++ specFooter false true "X".data "ABC".data) ≠
      collapseTrailing "Hello".data := by
  exact ⟨by decide, by decide⟩

/-- C4 (amended): in the Create workflow and in every BatchUpdate iteration,
the enhanced body is written back to the originating file only after the
remote store mutation (create or add-text) has completed; this covers every
combination of the relevant flags.  (As stated over every workflow the claim
fails: the enhanced UpdateText workflow performs its write-back before the
add-text call.) -/
theorem writeBack_after_mutation_create_and_batch :
    (∀ (e cd ai wb cf : Bool),
      writesAfterMutation (Create.runTrace e cd ai wb cf) = true) ∧
    (∀ (hm dr ex wb : Bool),
      writesAfterMutation (BatchUpdate.fileTrace hm dr ex wb) = true) := by
  constructor <;> decide

/-- Counterexample to C4 as stated: with write-back and a content file, the
enhanced UpdateText workflow writes the file before the add-text mutation. -/
theorem writeBack_before_mutation_updateText_cex :
    writesAfterMutation (UpdateText.runTrace true true true true) = false := by
  decide

/-- C6 (amended): with both `includeCreated` and `includeId` false, the footer
builders return the bare separator `"\n\n---"` — a non-empty string — rather
than empty output; the callers avoid appending it only because they invoke a
builder solely when at least one flag is set. -/
theorem builders_bothFlagsFalse_bare_separator :
    ∀ id d : List Char,
      Create.buildNewNoteFooter id d false false = "\n\n---".data ∧
      BatchUpdate.buildUpdateFooter id d false false = "\n\n---".data ∧
      BatchUpdate.buildNewNoteFooter id d false false = "\n\n---".data ∧
      "\n\n---".data ≠ ([] : List Char) := by
  intro id d
  refine ⟨?_, ?_, ?_, by decide⟩ <;>
    simp [Create.buildNewNoteFooter, BatchUpdate.buildUpdateFooter,
      BatchUpdate.buildNewNoteFooter]

/-- Counterexample to C6 as stated: with both flags false the builders return
the bare separator, not the empty string. -/
theorem builders_bothFlagsFalse_not_empty_cex :
    Create.buildNewNoteFooter ['X'] ['d'] false false ≠ [] ∧
    BatchUpdate.buildUpdateFooter ['X'] ['d'] false false ≠ [] := by
  exact ⟨by decide, by decide⟩

/-- C7: in a batch of three files — one with no detectable marker, one whose
marker identifier exists remotely, one whose marker identifier does not —
run without dry-run and with the remote calls succeeding, the aggregate
counts (updated, created, skipped, errored) are (1, 1, 1, 0); and in general
a file with no detectable marker is always skipped in batch mode, never
created. -/
theorem batch_outcome_counts :
    (∀ (c1 c2 c3 i2 i3 : List Char) (e1 : Bool),
      detectNoteId c1 = none → detectNoteId c2 = some i2 → detectNoteId c3 = some i3 →
      BatchUpdate.batchCounts [(c1, e1), (c2, true), (c3, false)] = (1, 1, 1, 0)) ∧
    (∀ (content : List Char) (ex : Bool), detectNoteId content = none →
      BatchUpdate.processFile content ex = BatchUpdate.FileOutcome.skipped) := by
  constructor
  · intro c1 c2 c3 i2 i3 e1 h1 h2 h3
    simp [BatchUpdate.batchCounts, BatchUpdate.processFile, h1, h2, h3]
  · intro content ex h
    simp [BatchUpdate.processFile, h]

/-- Witness for C7 at three concrete files. -/
theorem batch_outcome_counts_witness :
    BatchUpdate.batchCounts
        [("plain".data, false), ("a\n<!-- Note ID: A1 -->".data, true),
         ("b\n<!-- Note ID: B2-2 -->".data, false)] = (1, 1, 1, 0) ∧
    BatchUpdate.processFile "plain".data true = BatchUpdate.FileOutcome.skipped :=
  ⟨batch_outcome_counts.1 _ _ _ "A1".data "B2-2".data false
     (by decide) (by decide) (by decide),
   batch_outcome_counts.2 _ true (by decide)⟩

/-- C8: whenever a supplied identifier and the identifier embedded in the
current note content are both present and differ, the working identifier used
for the remote mutation resolves to the supplied one and the mismatch is
surfaced as a warning; the notes are never auto-merged. -/
theorem ambiguous_identity_resolution :
    ∀ (supplied embedded remoteContent : List Char) (fileContent : Option (List Char)),
      detectNoteId remoteContent = some embedded → embedded ≠ supplied →
      UpdateText.resolveNoteId (some supplied) fileContent = some supplied ∧
      UpdateText.idMismatchWarning supplied remoteContent = true := by
  intro s e rc fc h1 h2
  refine ⟨rfl, ?_⟩
  unfold UpdateText.idMismatchWarning
  rw [h1]
  show (e != s) = true
  simpa using h2

/-- Witness for C8 with supplied "AAA" and embedded "BBB". -/
theorem ambiguous_identity_resolution_witness :
    UpdateText.resolveNoteId (some "AAA".data) (some "file".data) = some "AAA".data ∧
    UpdateText.idMismatchWarning "AAA".data "note\n<!-- Note ID: BBB -->".data = true :=
  ambiguous_identity_resolution "AAA".data "BBB".data "note\n<!-- Note ID: BBB -->".data
    (some "file".data) (by decide) (by decide)

/-- The two-digit zero-padded rendering agrees with `padStart(2, "0")` on the
decimal rendering for every minutes value below 60. -/
theorem pad_two_digits :
    ∀ k, k < 60 →
      padStart2 (natRepr k) = [Char.ofNat (48 + k / 10), Char.ofNat (48 + k % 10)] := by
  decide

/-- C9: for every local UTC offset in minutes, the rendered suffix is the
sign, then the whole hours, with the minutes appended as ":MM" zero-padded to
two digits exactly when the minutes component is non-zero — `GMT±H` when it is
zero and `GMT±H:MM` otherwise, as the spec words it. -/
theorem buildGMTOffset_matches_spec (m : Int) :
    Create.buildGMTOffset m = specGMTOffsetSuffix m := by
  unfold Create.buildGMTOffset specGMTOffsetSuffix
  by_cases h : m.natAbs % 60 = 0
  · simp [h]
  · simp only [h, if_false]
    rw [pad_two_digits _ (Nat.mod_lt _ (by norm_num))]
    simp

/-- C10: the three textually duplicated copies of `stripExistingFooter` — in
the Create command, the enhanced UpdateText command and the BatchUpdate
command — compute the same function on every input body. -/
theorem stripExistingFooter_copies_agree :
    ∀ content : List Char,
      Create.stripExistingFooter content = UpdateText.stripExistingFooter content ∧
      UpdateText.stripExistingFooter content = BatchUpdate.stripExistingFooter content :=
  fun _ => ⟨rfl, rfl⟩
